import Mathlib

/-!
Shallow embedding of the POS / inventory core of the `kasir-pintar`
repository: the sale transactor (`createTransaction`), the inventory
adjuster (`adjustStock`, modelled from the spec because the repository only
ships a placeholder declaration for it), and the sales-report windower
(`calculateDateRange`, `getSalesReport`).

Modelling conventions:
* JS `number` money values (prices, totals, payments) are modelled as exact
  rationals (`Rat`).
* JS `Date` values are modelled as a day number since the Unix epoch plus a
  millisecond-of-day, with the civil-calendar conversions of ECMAScript's
  `MakeDay` (the standard days-from-civil / civil-from-days algorithms).
* The database is an explicit record of tables; each handler is a function
  from state to `Except error (state × result)` (the JS code throws and the
  surrounding storage transaction discards partial work on a throw).
* The wall clock and the random suffix of transaction numbers are injected
  as explicit parameters.
-/

namespace Kasir

/-! ### Calendar arithmetic (ECMAScript `Date` model) -/

/-- Day number since 1970-01-01 of the civil date `(y, m, d)`, month
`m` 1-based; `d` may be any integer (as in ECMAScript `MakeDay`, an
out-of-range day offsets from the first of the month). -/
def daysFromCivil (y m d : Int) : Int :=
  let y2 := if m ≤ 2 then y - 1 else y
  let era := y2 / 400
  let yoe := y2 - era * 400
  let mp := if 2 < m then m - 3 else m + 9
  let doy := (153 * mp + 2) / 5 + d - 1
  let doe := yoe * 365 + yoe / 4 - yoe / 100 + doy
  era * 146097 + doe - 719468

/-- Civil date: `year`, 1-based `month`, `day`. -/
structure CivilDate where
  year : Int
  month : Int
  day : Int
deriving Repr, DecidableEq

/-- Civil date of a day number since 1970-01-01. -/
def civilFromDays (z : Int) : CivilDate :=
  let z2 := z + 719468
  let era := z2 / 146097
  let doe := z2 - era * 146097
  let yoe :=
    (doe - doe / 1460 + doe / 36524 - doe / 146096) / 365
  let y := yoe + era * 400
  let doy := doe - (365 * yoe + yoe / 4 - yoe / 100)
  let mp := (5 * doy + 2) / 153
  let d := doy - (153 * mp + 2) / 5 + 1
  let m := if mp < 10 then mp + 3 else mp - 9
  ⟨if m ≤ 2 then y + 1 else y, m, d⟩

/-- ECMAScript `MakeDay(year, month, day)` with 0-based `month` (an
out-of-range month rolls the year). -/
def makeDay (year month day : Int) : Int :=
  daysFromCivil (year + month / 12) (month % 12 + 1) day

/-- An instant: day number since the epoch plus millisecond of day. -/
structure DateTime where
  days : Int
  msOfDay : Int
deriving Repr, DecidableEq

/-- `new Date(y, monthIdx, d, h, mi, sec, ms)` (0-based month), with
ECMAScript normalisation of the time component into the day number. -/
def mkDateTime (y monthIdx d h mi sec ms : Int) : DateTime :=
  let total := makeDay y monthIdx d * 86400000 + (((h * 60 + mi) * 60 + sec) * 1000 + ms)
  ⟨total / 86400000, total % 86400000⟩

/-- `Date.prototype.getDay`: 0 = Sunday, …, 6 = Saturday. -/
def DateTime.getDay (t : DateTime) : Int :=
  (t.days + 4) % 7

/-- Civil components of an instant. -/
def DateTime.civil (t : DateTime) : CivilDate :=
  civilFromDays t.days

/-- `getFullYear`. -/
def DateTime.getFullYear (t : DateTime) : Int := t.civil.year

/-- `getMonth` (0-based, as in JS). -/
def DateTime.getMonth (t : DateTime) : Int := t.civil.month - 1

/-- `getDate` (day of month, 1-based). -/
def DateTime.getDate (t : DateTime) : Int := t.civil.day

/-- `setDate(n)`: replace the day-of-month by `n` (with calendar
normalisation), keeping the time of day. -/
def DateTime.setDateOnly (t : DateTime) (n : Int) : DateTime :=
  ⟨makeDay t.getFullYear t.getMonth n, t.msOfDay⟩

/-- Milliseconds since the epoch (`Date.prototype.getTime`). -/
def DateTime.epochMs (t : DateTime) : Int :=
  t.days * 86400000 + t.msOfDay

/-- Instant-order used by the report's `gte`/`lte` range conditions. -/
def DateTime.le (a b : DateTime) : Bool :=
  a.days < b.days || (a.days == b.days && a.msOfDay ≤ b.msOfDay)

/-! ### Data model (`db/schema.ts` and `schema.ts`) -/

/-- `paymentMethodEnum`: cash, transfer, e_wallet. -/
inductive PaymentMethod
  | cash | transfer | e_wallet
deriving Repr, DecidableEq

/-- `transactionStatusEnum`. -/
inductive TransactionStatus
  | pending | completed | cancelled
deriving Repr, DecidableEq

/-- `movement_type` enum: in, out, adjustment (`in` renamed `stockIn`
because `in` is a Lean keyword). -/
inductive MovementType
  | stockIn | out | adjustment
deriving Repr, DecidableEq

/-- `reference_type` enum of stock movements. -/
inductive ReferenceType
  | transaction | adjustment | restock
deriving Repr, DecidableEq

/-- A row of `productsTable`.  The numeric `price` column (a decimal string
in storage, parsed with `parseFloat` on every read) is modelled as an exact
rational. -/
structure Product where
  id : Nat
  name : String
  description : Option String
  barcode : Option String
  price : Rat
  stock_quantity : Int
  category : Option String
  is_active : Bool
  created_at : DateTime
  updated_at : DateTime
deriving Repr, DecidableEq

/-- A row of `transactionsTable`. -/
structure TransactionRow where
  id : Nat
  transaction_number : String
  total_amount : Rat
  payment_method : PaymentMethod
  payment_amount : Rat
  change_amount : Rat
  status : TransactionStatus
  notes : Option String
  created_at : DateTime
  updated_at : DateTime
deriving Repr, DecidableEq

/-- A row of `transactionItemsTable`. -/
structure TransactionItemRow where
  id : Nat
  transaction_id : Nat
  product_id : Nat
  product_name : String
  quantity : Int
  unit_price : Rat
  total_price : Rat
  created_at : DateTime
deriving Repr, DecidableEq

/-- A row of `stockMovementsTable`. -/
structure StockMovement where
  product_id : Nat
  movement_type : MovementType
  quantity : Int
  reference_type : ReferenceType
  reference_id : Option Nat
  notes : Option String
  created_at : DateTime
deriving Repr, DecidableEq

/-- The database state: the four tables touched by the core, plus the
id sequences of the two tables whose generated ids the handlers read. -/
structure DBState where
  products : List Product
  transactions : List TransactionRow
  transaction_items : List TransactionItemRow
  stock_movements : List StockMovement
  nextTxId : Nat
  nextItemId : Nat
deriving Repr, DecidableEq

/-! ### Sale transactor (`createTransaction`) -/

/-- One element of `CreateTransactionInput.items`. -/
structure TransactionItemInput where
  product_id : Nat
  quantity : Int
deriving Repr, DecidableEq

/-- `createTransactionInputSchema`. -/
structure CreateTransactionInput where
  items : List TransactionItemInput
  payment_method : PaymentMethod
  payment_amount : Rat
  notes : Option String
deriving Repr, DecidableEq

/-- The distinct `throw new Error(...)` sites of `createTransaction`,
tagged by kind (the JS code throws `Error` values with these messages). -/
inductive SaleError
  /-- "Transaction must contain at least one item" -/
  | emptyOrder
  /-- "One or more products not found" (requested count ≠ found count) -/
  | productsNotFound
  /-- "Product with ID ... not found" (per-item lookup) -/
  | productNotFoundId (id : Nat)
  /-- "Product ... is not active" -/
  | productInactive (name : String)
  /-- "Insufficient stock for product ..." -/
  | insufficientStock (name : String)
deriving Repr, DecidableEq

/-- The `requestedProducts` read: all products whose id occurs in the
order's `product_id` list (the JS code loads every product and filters). -/
def requestedProducts (s : DBState) (input : CreateTransactionInput) : List Product :=
  s.products.filter (fun p => (input.items.map (fun i => i.product_id)).contains p.id)

/-- The per-item validation loop (existence, `is_active`, per-line stock
check against the initial read). -/
def validateItems : List TransactionItemInput → List Product → Option SaleError
  | [], _ => none
  | item :: rest, requested =>
    match requested.find? (fun p => p.id == item.product_id) with
    | none => some (.productNotFoundId item.product_id)
    | some product =>
      if !product.is_active then some (.productInactive product.name)
      else if product.stock_quantity < item.quantity then
        some (.insufficientStock product.name)
      else validateItems rest requested

/-- The data computed per line in step 2 of `createTransaction`. -/
structure ItemDetail where
  product_id : Nat
  product_name : String
  quantity : Int
  unit_price : Rat
  total_price : Rat
deriving Repr, DecidableEq

/-- Step 2: per-line details (`itemDetails` in the source).  The `none`
branch of the lookup is unreachable after validation; the source uses a
non-null assertion there. -/
def computeItemDetails (items : List TransactionItemInput) (requested : List Product) :
    List ItemDetail :=
  items.map fun item =>
    match requested.find? (fun p => p.id == item.product_id) with
    | some product =>
      { product_id := item.product_id
        product_name := product.name
        quantity := item.quantity
        unit_price := product.price
        total_price := product.price * (item.quantity : Rat) }
    | none =>
      { product_id := item.product_id, product_name := ""
        quantity := item.quantity, unit_price := 0, total_price := 0 }

/-- Step 4: the inserted `transactionItemsTable` rows, with serially
assigned ids. -/
def assignItemRows (nextId txId : Nat) (now : DateTime) :
    List ItemDetail → List TransactionItemRow
  | [] => []
  | d :: rest =>
    { id := nextId, transaction_id := txId, product_id := d.product_id
      product_name := d.product_name, quantity := d.quantity
      unit_price := d.unit_price, total_price := d.total_price
      created_at := now } :: assignItemRows (nextId + 1) txId now rest

/-- Step 5: the stock-update loop.  Each iteration recomputes the new
stock from the *initial* `requestedProducts` read (not from the current
row) and writes it to every row with the item's `product_id`.  The `none`
branch is unreachable after validation. -/
def applyStockUpdates (requested : List Product) (now : DateTime)
    (items : List TransactionItemInput) (ps : List Product) : List Product :=
  items.foldl
    (fun acc item =>
      match requested.find? (fun p => p.id == item.product_id) with
      | some product =>
        acc.map fun p =>
          if p.id == item.product_id then
            { p with stock_quantity := product.stock_quantity - item.quantity
                     updated_at := now }
          else p
      | none => acc)
    ps

/-- Step 6: the inserted `stockMovementsTable` rows, one per input line. -/
def saleMovements (txId : Nat) (txNumber : String) (now : DateTime)
    (items : List TransactionItemInput) : List StockMovement :=
  items.map fun item =>
    { product_id := item.product_id
      movement_type := .out
      quantity := -item.quantity
      reference_type := .transaction
      reference_id := some txId
      notes := some ("Sale - Transaction " ++ txNumber)
      created_at := now }

/-- The returned `TransactionWithItems` value. -/
structure TransactionWithItems where
  transaction : TransactionRow
  items : List TransactionItemRow
deriving Repr, DecidableEq

/-- Steps 2–7 of `createTransaction` (totals, persisted rows, stock
updates, movement rows), executed once validation has passed. -/
def commitSale (input : CreateTransactionInput) (now : DateTime) (rand : String)
    (s : DBState) (requested : List Product) : DBState × TransactionWithItems :=
  let itemDetails := computeItemDetails input.items requested
  let totalAmount := (itemDetails.map fun d => d.total_price).sum
  let changeAmount := max 0 (input.payment_amount - totalAmount)
  let transactionNumber := "TRX-" ++ toString now.epochMs ++ "-" ++ rand
  let txId := s.nextTxId
  let txRow : TransactionRow :=
    { id := txId
      transaction_number := transactionNumber
      total_amount := totalAmount
      payment_method := input.payment_method
      payment_amount := input.payment_amount
      change_amount := changeAmount
      status := .completed
      notes := input.notes
      created_at := now
      updated_at := now }
  let itemRows := assignItemRows s.nextItemId txId now itemDetails
  let products2 := applyStockUpdates requested now input.items s.products
  let movements := saleMovements txId transactionNumber now input.items
  let s2 : DBState :=
    { products := products2
      transactions := s.transactions ++ [txRow]
      transaction_items := s.transaction_items ++ itemRows
      stock_movements := s.stock_movements ++ movements
      nextTxId := txId + 1
      nextItemId := s.nextItemId + itemRows.length }
  (s2, { transaction := txRow, items := itemRows })

/-- `createTransaction` (`handlers/create_transaction.ts`).  `now` is the
wall clock and `rand` the random suffix of the generated transaction
number; a thrown JS error is an `Except.error`, in which case the
surrounding storage state is unchanged (every throw happens before the
first write). -/
def createTransaction (input : CreateTransactionInput) (now : DateTime)
    (rand : String) (s : DBState) :
    Except SaleError (DBState × TransactionWithItems) :=
  if input.items.isEmpty then
    .error .emptyOrder
  else
    let productIds := input.items.map fun i => i.product_id
    let requested := requestedProducts s input
    if requested.length ≠ productIds.length then
      .error .productsNotFound
    else
      match validateItems input.items requested with
      | some e => .error e
      | none => .ok (commitSale input now rand s requested)

/-! ### Inventory adjuster (`adjustStock`) -/

/-- `stockAdjustmentInputSchema`. -/
structure StockAdjustmentInput where
  product_id : Nat
  adjustment_quantity : Int
  notes : Option String
deriving Repr, DecidableEq

/-- Failure kinds of the inventory adjuster (spec §4.2 / §7). -/
inductive AdjustError
  | notFound
  | negativeStockResult
deriving Repr, DecidableEq

/-- Modelled from the spec: `adjustStock` in
`src/server/src/handlers/adjust_stock.ts` is only a placeholder
declaration ("Real code should be implemented here"), so the handler is
modelled from spec §4.2: look the product up; compute
`newStock = current stock + signedQuantity`; reject with
`NegativeStockResult` when `newStock < 0` (no mutation, no ledger entry);
otherwise update the product row (`stock_quantity`, `updated_at`) and
append exactly one movement row with `movement_type = adjustment`,
`quantity = signedQuantity`, `reference_type = adjustment`,
`reference_id = null` and the given notes. -/
def adjustStock (input : StockAdjustmentInput) (now : DateTime) (s : DBState) :
    Except AdjustError (DBState × Product) :=
  match s.products.find? (fun p => p.id == input.product_id) with
  | none => .error .notFound
  | some product =>
    let newStock := product.stock_quantity + input.adjustment_quantity
    if newStock < 0 then
      .error .negativeStockResult
    else
      let updated := { product with stock_quantity := newStock, updated_at := now }
      let movement : StockMovement :=
        { product_id := input.product_id
          movement_type := .adjustment
          quantity := input.adjustment_quantity
          reference_type := .adjustment
          reference_id := none
          notes := input.notes
          created_at := now }
      .ok ({ s with
              products := s.products.map fun p =>
                if p.id == input.product_id then updated else p
              stock_movements := s.stock_movements ++ [movement] },
           updated)

/-! ### Report windower (`getSalesReport`, `calculateDateRange`) -/

/-- `period` keyword.  The enum is closed (`z.enum`), so the source's
`default: throw new Error('Invalid period')` branches are unreachable for
well-typed inputs and have no representation here. -/
inductive Period
  | daily | weekly | monthly
deriving Repr, DecidableEq

/-- `salesReportInputSchema`. -/
structure SalesReportInput where
  period : Period
  start_date : Option DateTime
  end_date : Option DateTime
deriving Repr, DecidableEq

/-- `calculateDateRange` (same file as `getSalesReport`), with the wall
clock `now` passed explicitly. -/
def calculateDateRange (input : SalesReportInput) (now : DateTime) :
    DateTime × DateTime :=
  match input.start_date, input.end_date with
  | some sd, some ed => (sd, ed)
  | some sd, none => (sd, now)
  | none, some ed =>
    match input.period with
    | .daily =>
      (mkDateTime ed.getFullYear ed.getMonth ed.getDate 0 0 0 0,
       mkDateTime ed.getFullYear ed.getMonth ed.getDate 23 59 59 999)
    | .weekly =>
      let dayOfWeek := ed.getDay
      let daysToMonday := if dayOfWeek == 0 then 6 else dayOfWeek - 1
      let start0 := ed.setDateOnly (ed.getDate - daysToMonday)
      (⟨start0.days, 0⟩, ed)
    | .monthly =>
      (mkDateTime ed.getFullYear ed.getMonth 1 0 0 0 0, ed)
  | none, none =>
    match input.period with
    | .daily =>
      (mkDateTime now.getFullYear now.getMonth now.getDate 0 0 0 0,
       mkDateTime now.getFullYear now.getMonth now.getDate 23 59 59 999)
    | .weekly =>
      let dayOfWeek := now.getDay
      let daysToMonday := if dayOfWeek == 0 then 6 else dayOfWeek - 1
      let start0 := now.setDateOnly (now.getDate - daysToMonday)
      let start : DateTime := ⟨start0.days, 0⟩
      let end0 := start.setDateOnly (start.getDate + 6)
      (start, ⟨end0.days, 86399999⟩)
    | .monthly =>
      (mkDateTime now.getFullYear now.getMonth 1 0 0 0 0,
       mkDateTime now.getFullYear (now.getMonth + 1) 0 23 59 59 999)

/-- The report value (`salesReportSchema`), numeric fields as rationals. -/
structure SalesReport where
  period : Period
  start_date : DateTime
  end_date : DateTime
  total_sales : Rat
  total_transactions : Nat
  average_transaction : Rat
  transactions : List TransactionRow
deriving Repr, DecidableEq

/-- `getSalesReport`: resolve the window, filter the transactions to
`status = completed` with `created_at` in `[start, end]`, and aggregate.
(The source additionally orders the filtered rows by `created_at`
descending; the ordering does not affect any aggregate and is not
modelled.) -/
def getSalesReport (input : SalesReportInput) (now : DateTime) (s : DBState) :
    SalesReport :=
  let range := calculateDateRange input now
  let startDate := range.1
  let endDate := range.2
  let transactions := s.transactions.filter fun t =>
    t.status == .completed && DateTime.le startDate t.created_at &&
      DateTime.le t.created_at endDate
  let totalSales := (transactions.map fun t => t.total_amount).sum
  let totalTransactions := transactions.length
  let averageTransaction :=
    if totalTransactions > 0 then totalSales / (totalTransactions : Rat) else 0
  { period := input.period
    start_date := startDate
    end_date := endDate
    total_sales := totalSales
    total_transactions := totalTransactions
    average_transaction := averageTransaction
    transactions := transactions }

/-! ### Operation sequences over the store -/

/-- A core operation: a sale or a manual stock adjustment, with its
injected clock/randomness. -/
inductive Op
  | sale (input : CreateTransactionInput) (now : DateTime) (rand : String)
  | adjust (input : StockAdjustmentInput) (now : DateTime)

/-- Run one operation against the store: on error the storage transaction
rolls back, leaving the state unchanged. -/
def applyOp (s : DBState) : Op → DBState
  | .sale input now rand =>
    match createTransaction input now rand s with
    | .ok (s2, _) => s2
    | .error _ => s
  | .adjust input now =>
    match adjustStock input now s with
    | .ok (s2, _) => s2
    | .error _ => s

/-- Run a sequence of operations. -/
def runOps (s : DBState) (ops : List Op) : DBState :=
  ops.foldl applyOp s

/-- Well-formedness of the product table: primary-key uniqueness. -/
def WFProducts (s : DBState) : Prop :=
  (s.products.map fun p => p.id).Nodup

/-- Signed sum of the movement quantities recorded for a product. -/
def movementSum (s : DBState) (pid : Nat) : Int :=
  ((s.stock_movements.filter fun m => m.product_id == pid).map
    fun m => m.quantity).sum

/-- The auditability invariant: every product's stock equals its base
stock (per the arbitrary base function `base`) plus the signed sum of its
recorded movements. -/
def reconciles (base : Nat → Int) (s : DBState) : Prop :=
  ∀ p ∈ s.products, p.stock_quantity = base p.id + movementSum s p.id

/-- The row update applied to one product row by the stock-update loop of
a sale whose lines have pairwise-distinct product ids (proof-side
characterisation of `applyStockUpdates`). -/
def updFn (requested : List Product) (now : DateTime)
    (items : List TransactionItemInput) (p : Product) : Product :=
  match items.find? (fun it => it.product_id == p.id) with
  | some it =>
    match requested.find? (fun q => q.id == it.product_id) with
    | some rp =>
      { p with stock_quantity := rp.stock_quantity - it.quantity, updated_at := now }
    | none => p
  | none => p

/-- A sample instant for concrete witnesses. -/
def sampleTime : DateTime := ⟨0, 0⟩

/-- A sample product row (id 1, price 2, stock 5, active). -/
def sampleProductA : Product :=
  ⟨1, "A", none, none, 2, 5, none, true, ⟨0, 0⟩, ⟨0, 0⟩⟩

/-- A sample store holding only `sampleProductA`. -/
def sampleState : DBState := ⟨[sampleProductA], [], [], [], 1, 1⟩

/-- Recognises the insufficient-stock failure kind of a sale result. -/
def isInsufficientStock : Except SaleError (DBState × TransactionWithItems) → Bool
  | .error (.insufficientStock _) => true
  | _ => false

/-! ## Theorems -/

/-! ### Calendar correctness -/

set_option maxHeartbeats 8000000 in
/-- Year-of-era and day-of-year bounds of the civil-from-days algorithm:
for a day-of-era `a` in `[0, 146096]`, the computed year-of-era lies in
`[0, 399]` and the day-of-year offset lies in `[0, 365]`. -/
theorem yoe_doy_bounds (a : Int) (h1 : 0 ≤ a) (h2 : a ≤ 146096) :
    0 ≤ (a - a / 1460 + a / 36524 - a / 146096) / 365 ∧
    (a - a / 1460 + a / 36524 - a / 146096) / 365 ≤ 399 ∧
    0 ≤ a - (365 * ((a - a / 1460 + a / 36524 - a / 146096) / 365) +
      ((a - a / 1460 + a / 36524 - a / 146096) / 365) / 4 -
      ((a - a / 1460 + a / 36524 - a / 146096) / 365) / 100) ∧
    a - (365 * ((a - a / 1460 + a / 36524 - a / 146096) / 365) +
      ((a - a / 1460 + a / 36524 - a / 146096) / 365) / 4 -
      ((a - a / 1460 + a / 36524 - a / 146096) / 365) / 100) ≤ 365 := by
  obtain ⟨b, hb⟩ : ∃ b, (a - a / 1460 + a / 36524 - a / 146096) / 365 = b := ⟨_, rfl⟩
  obtain ⟨e, he⟩ : ∃ e, a / 1460 = e := ⟨_, rfl⟩
  rw [hb]
  have he1 : 0 ≤ e := by omega
  have he2 : e ≤ 100 := by omega
  have hb1 : 4 * e - 2 ≤ b := by omega
  have hb2 : b ≤ 4 * e + 5 := by omega
  interval_cases e <;> interval_cases b <;> omega

set_option maxHeartbeats 4000000 in
/-- The two civil-calendar conversions are mutually inverse:
`daysFromCivil` recovers the day number from the civil components
produced by `civilFromDays`. -/
theorem daysFromCivil_civilFromDays (z : Int) :
    daysFromCivil (civilFromDays z).year (civilFromDays z).month
      (civilFromDays z).day = z := by
  have hkey := yoe_doy_bounds (z + 719468 - (z + 719468) / 146097 * 146097)
    (by omega) (by omega)
  simp only [civilFromDays]
  obtain ⟨era, hera⟩ : ∃ t, (z + 719468) / 146097 = t := ⟨_, rfl⟩
  rw [hera] at hkey ⊢
  obtain ⟨yoe, hyoe⟩ : ∃ t,
      (z + 719468 - era * 146097 - (z + 719468 - era * 146097) / 1460 +
        (z + 719468 - era * 146097) / 36524 -
        (z + 719468 - era * 146097) / 146096) / 365 = t := ⟨_, rfl⟩
  rw [hyoe] at hkey ⊢
  obtain ⟨doy, hdoy⟩ : ∃ t,
      z + 719468 - era * 146097 - (365 * yoe + yoe / 4 - yoe / 100) = t := ⟨_, rfl⟩
  rw [hdoy] at hkey ⊢
  obtain ⟨mp, hmp⟩ : ∃ t, (5 * doy + 2) / 153 = t := ⟨_, rfl⟩
  rw [hmp]
  simp only [daysFromCivil]
  split_ifs <;>
  · try simp only [add_sub_cancel_right, sub_add_cancel]
    have h400 : (yoe + era * 400) / 400 = era := by omega
    rw [h400]
    have hy : yoe + era * 400 - era * 400 = yoe := by ring
    rw [hy]
    omega

set_option maxHeartbeats 1000000 in
/-- The month produced by `civilFromDays` lies in `[1, 12]`. -/
theorem civilFromDays_month_bounds (z : Int) :
    1 ≤ (civilFromDays z).month ∧ (civilFromDays z).month ≤ 12 := by
  have hkey := yoe_doy_bounds (z + 719468 - (z + 719468) / 146097 * 146097)
    (by omega) (by omega)
  simp only [civilFromDays]
  obtain ⟨era, hera⟩ : ∃ t, (z + 719468) / 146097 = t := ⟨_, rfl⟩
  rw [hera] at hkey ⊢
  obtain ⟨yoe, hyoe⟩ : ∃ t,
      (z + 719468 - era * 146097 - (z + 719468 - era * 146097) / 1460 +
        (z + 719468 - era * 146097) / 36524 -
        (z + 719468 - era * 146097) / 146096) / 365 = t := ⟨_, rfl⟩
  rw [hyoe] at hkey ⊢
  obtain ⟨doy, hdoy⟩ : ∃ t,
      z + 719468 - era * 146097 - (365 * yoe + yoe / 4 - yoe / 100) = t := ⟨_, rfl⟩
  rw [hdoy] at hkey ⊢
  split_ifs <;> omega

/-- `makeDay` with an in-range (0-based) month is `daysFromCivil` of the
corresponding 1-based month. -/
theorem makeDay_of_month_range (y m0 d : Int) (h1 : 0 ≤ m0) (h2 : m0 ≤ 11) :
    makeDay y m0 d = daysFromCivil y (m0 + 1) d := by
  have hd : m0 / 12 = 0 := by omega
  have hm : m0 % 12 = m0 := by omega
  simp [makeDay, hd, hm]

/-- `daysFromCivil` is linear in the day argument. -/
theorem daysFromCivil_day_sub (y m d t : Int) :
    daysFromCivil y m (d - t) = daysFromCivil y m d - t := by
  simp only [daysFromCivil]
  split_ifs <;> ring

/-- `mkDateTime` with an in-range time component. -/
theorem mkDateTime_eq (y m0 d h mi sec ms : Int)
    (hlo : 0 ≤ ((h * 60 + mi) * 60 + sec) * 1000 + ms)
    (hhi : ((h * 60 + mi) * 60 + sec) * 1000 + ms < 86400000) :
    mkDateTime y m0 d h mi sec ms =
      ⟨makeDay y m0 d, ((h * 60 + mi) * 60 + sec) * 1000 + ms⟩ := by
  obtain ⟨T, hT⟩ : ∃ t, ((h * 60 + mi) * 60 + sec) * 1000 + ms = t := ⟨_, rfl⟩
  rw [hT] at hlo hhi
  simp only [mkDateTime, hT]
  obtain ⟨k, hk⟩ : ∃ t, makeDay y m0 d = t := ⟨_, rfl⟩
  rw [hk]
  have h1 : (k * 86400000 + T) / 86400000 = k := by omega
  have h2 : (k * 86400000 + T) % 86400000 = T := by omega
  rw [h1, h2]

set_option maxHeartbeats 1000000 in
/-- C8: with `end_date` given and `start_date` absent, the resolved window
is: daily — `[00:00:00.000, 23:59:59.999]` of `end_date`'s calendar day;
weekly — start is Monday `00:00:00.000` of the week containing `end_date`
(Sunday maps 6 days back, any other day `dayOfWeek - 1` days back) and the
end is `end_date` unmodified; monthly — start is the first day of
`end_date`'s month at `00:00:00.000` and the end is `end_date` unmodified;
in particular `end = 2024-01-31` (day 19753) yields
`start = 2024-01-01T00:00:00.000` (day 19723) with the end unchanged. -/
theorem c8_report_window_end_only (ed now : DateTime) :
    calculateDateRange ⟨.daily, none, some ed⟩ now =
      (⟨ed.days, 0⟩, ⟨ed.days, 86399999⟩) ∧
    calculateDateRange ⟨.weekly, none, some ed⟩ now =
      (⟨ed.days - (if ed.getDay == 0 then 6 else ed.getDay - 1), 0⟩, ed) ∧
    calculateDateRange ⟨.monthly, none, some ed⟩ now =
      (⟨ed.days - ((civilFromDays ed.days).day - 1), 0⟩, ed) ∧
    civilFromDays 19753 = ⟨2024, 1, 31⟩ ∧
    civilFromDays 19723 = ⟨2024, 1, 1⟩ ∧
    calculateDateRange ⟨.monthly, none, some ⟨19753, 0⟩⟩ now =
      (⟨19723, 0⟩, ⟨19753, 0⟩) := by
  have hm := civilFromDays_month_bounds ed.days
  have hrt := daysFromCivil_civilFromDays ed.days
  have hmk : ∀ dd : Int, makeDay ed.getFullYear ed.getMonth dd =
      daysFromCivil (civilFromDays ed.days).year (civilFromDays ed.days).month dd := by
    intro dd
    have h := makeDay_of_month_range ed.getFullYear ed.getMonth dd
      (by simp only [DateTime.getMonth, DateTime.civil]; omega)
      (by simp only [DateTime.getMonth, DateTime.civil]; omega)
    rw [h]
    simp only [DateTime.getMonth, DateTime.getFullYear, DateTime.civil]
    congr 1
    omega
  have hmd : makeDay ed.getFullYear ed.getMonth ed.getDate = ed.days := by
    rw [hmk ed.getDate]
    simpa only [DateTime.getDate, DateTime.civil] using hrt
  refine ⟨?_, ?_, ?_, by decide, by decide, ?_⟩
  · simp only [calculateDateRange]
    rw [mkDateTime_eq _ _ _ _ _ _ _ (by norm_num) (by norm_num),
      mkDateTime_eq _ _ _ _ _ _ _ (by norm_num) (by norm_num), hmd]
    norm_num
  · simp only [calculateDateRange, DateTime.setDateOnly]
    rw [hmk, show (DateTime.getDate ed) - (if ed.getDay == 0 then 6 else ed.getDay - 1) =
      (civilFromDays ed.days).day - (if ed.getDay == 0 then 6 else ed.getDay - 1) from by
        simp only [DateTime.getDate, DateTime.civil]]
    rw [daysFromCivil_day_sub, hrt]
  · simp only [calculateDateRange]
    rw [mkDateTime_eq _ _ _ _ _ _ _ (by norm_num) (by norm_num), hmk]
    rw [show (1 : Int) = (civilFromDays ed.days).day - ((civilFromDays ed.days).day - 1) from by ring]
    rw [daysFromCivil_day_sub, hrt]
    norm_num
  · simp only [calculateDateRange]
    rw [mkDateTime_eq _ _ _ _ _ _ _ (by norm_num) (by norm_num)]
    norm_num
    decide

/-! ### Sale transactor: success characterisation -/

/-- `createTransaction` succeeds exactly when the order is non-empty, the
requested-product count matches the line count, and the per-line
validation passes; the result is then `commitSale`. -/
theorem createTransaction_ok_iff (input : CreateTransactionInput)
    (now : DateTime) (rand : String) (s : DBState)
    (out : DBState × TransactionWithItems) :
    createTransaction input now rand s = .ok out ↔
      input.items ≠ [] ∧
      (requestedProducts s input).length =
        (input.items.map fun i => i.product_id).length ∧
      validateItems input.items (requestedProducts s input) = none ∧
      out = commitSale input now rand s (requestedProducts s input) := by
  simp only [createTransaction]
  split_ifs with h1 h2
  · constructor
    · intro h
      simp at h
    · rintro ⟨hne, -, -, -⟩
      exact absurd (List.isEmpty_iff.mp h1) hne
  · constructor
    · intro h
      simp at h
    · rintro ⟨-, hlen, -, -⟩
      exact absurd hlen h2
  · cases hv : validateItems input.items (requestedProducts s input) with
    | some e =>
      simp only [hv]
      constructor
      · intro h
        simp at h
      · rintro ⟨-, -, hnone, -⟩
        simp at hnone
    | none =>
      simp only [hv]
      constructor
      · intro h
        refine ⟨fun hn => h1 ?_, by omega, by trivial, ?_⟩
        · rw [hn]
          rfl
        · cases h
          rfl
      · rintro ⟨-, -, -, rfl⟩
        rfl

/-! ### C9: report aggregation -/

/-- C9: the sales-report aggregation returns all-zero statistics on an
empty result set (no division fault), and in general the average is the
total divided by the count when the count is positive and `0` when it is
zero. -/
theorem c9_average_transaction (input : SalesReportInput) (now : DateTime)
    (s : DBState) :
    ((getSalesReport input now s).transactions = [] →
      (getSalesReport input now s).total_sales = 0 ∧
      (getSalesReport input now s).total_transactions = 0 ∧
      (getSalesReport input now s).average_transaction = 0) ∧
    (0 < (getSalesReport input now s).total_transactions →
      (getSalesReport input now s).average_transaction =
        (getSalesReport input now s).total_sales /
          ((getSalesReport input now s).total_transactions : Rat)) ∧
    ((getSalesReport input now s).total_transactions = 0 →
      (getSalesReport input now s).average_transaction = 0) := by
  simp only [getSalesReport]
  refine ⟨fun h => ?_, fun h => ?_, fun h => ?_⟩
  · rw [h]
    simp
  · simp only at h ⊢
    rw [if_pos (by omega)]
  · simp only at h ⊢
    rw [h]
    simp

/-- C9 witness: the empty store. -/
theorem c9_average_transaction_witness :
    (getSalesReport ⟨.daily, some ⟨0, 0⟩, some ⟨0, 0⟩⟩ ⟨0, 0⟩
        ⟨[], [], [], [], 1, 1⟩).total_sales = 0 ∧
    (getSalesReport ⟨.daily, some ⟨0, 0⟩, some ⟨0, 0⟩⟩ ⟨0, 0⟩
        ⟨[], [], [], [], 1, 1⟩).total_transactions = 0 ∧
    (getSalesReport ⟨.daily, some ⟨0, 0⟩, some ⟨0, 0⟩⟩ ⟨0, 0⟩
        ⟨[], [], [], [], 1, 1⟩).average_transaction = 0 := by
  have h := c9_average_transaction ⟨.daily, some ⟨0, 0⟩, some ⟨0, 0⟩⟩ ⟨0, 0⟩
    ⟨[], [], [], [], 1, 1⟩
  exact ⟨(h.1 rfl).1, (h.1 rfl).2.1, h.2.2 rfl⟩

/-! ### C7: change computation -/

/-- C7: every successful sale, for any payment method and positive payment
amount, returns and persists `change_amount = max 0 (payment_amount -
total_amount)`. -/
theorem c7_change_amount (input : CreateTransactionInput) (now : DateTime)
    (rand : String) (s s2 : DBState) (r : TransactionWithItems)
    (hok : createTransaction input now rand s = .ok (s2, r))
    (hpos : 0 < input.payment_amount) :
    r.transaction.change_amount =
      max 0 (input.payment_amount - r.transaction.total_amount) ∧
    r.transaction.payment_amount = input.payment_amount ∧
    s2.transactions = s.transactions ++ [r.transaction] := by
  obtain ⟨-, -, -, hout⟩ := (createTransaction_ok_iff _ _ _ _ _).mp hok
  have hs2 : s2 = (commitSale input now rand s (requestedProducts s input)).1 :=
    congrArg Prod.fst hout
  have hr : r = (commitSale input now rand s (requestedProducts s input)).2 :=
    congrArg Prod.snd hout
  subst hs2
  subst hr
  simp [commitSale]

/-- C7 witness: one product, quantity 1, overpayment. -/
theorem c7_change_amount_witness :
    createTransaction ⟨[⟨1, 1⟩], .cash, 10, none⟩ sampleTime "r" sampleState =
      .ok (commitSale ⟨[⟨1, 1⟩], .cash, 10, none⟩ sampleTime "r" sampleState
        (requestedProducts sampleState ⟨[⟨1, 1⟩], .cash, 10, none⟩)) ∧
    (0 : Rat) < 10 ∧
    (commitSale ⟨[⟨1, 1⟩], .cash, 10, none⟩ sampleTime "r" sampleState
        (requestedProducts sampleState ⟨[⟨1, 1⟩], .cash, 10, none⟩)).2.transaction.change_amount =
      max 0 (10 - (commitSale ⟨[⟨1, 1⟩], .cash, 10, none⟩ sampleTime "r" sampleState
        (requestedProducts sampleState ⟨[⟨1, 1⟩], .cash, 10, none⟩)).2.transaction.total_amount) := by
  have hok : createTransaction ⟨[⟨1, 1⟩], .cash, 10, none⟩ sampleTime "r" sampleState =
      .ok ((commitSale ⟨[⟨1, 1⟩], .cash, 10, none⟩ sampleTime "r" sampleState
        (requestedProducts sampleState ⟨[⟨1, 1⟩], .cash, 10, none⟩)).1,
        (commitSale ⟨[⟨1, 1⟩], .cash, 10, none⟩ sampleTime "r" sampleState
        (requestedProducts sampleState ⟨[⟨1, 1⟩], .cash, 10, none⟩)).2) := rfl
  exact ⟨rfl, by norm_num,
    (c7_change_amount ⟨[⟨1, 1⟩], .cash, 10, none⟩ sampleTime "r" sampleState _ _ hok
      (by norm_num)).1⟩

/-! ### C10: underpayment is accepted -/

/-- C10: an order that passes validation succeeds regardless of the
payment amount; when `payment_amount` is strictly below the total, the
transaction is still persisted with status `completed` and
`change_amount = 0`. -/
theorem c10_underpayment_succeeds (input : CreateTransactionInput)
    (now : DateTime) (rand : String) (s : DBState)
    (hne : input.items ≠ [])
    (hlen : (requestedProducts s input).length =
      (input.items.map fun i => i.product_id).length)
    (hval : validateItems input.items (requestedProducts s input) = none)
    (hunder : input.payment_amount <
      ((computeItemDetails input.items (requestedProducts s input)).map
        fun d => d.total_price).sum) :
    createTransaction input now rand s =
      .ok (commitSale input now rand s (requestedProducts s input)) ∧
    (commitSale input now rand s (requestedProducts s input)).2.transaction.status =
      .completed ∧
    (commitSale input now rand s (requestedProducts s input)).2.transaction.change_amount =
      0 ∧
    (commitSale input now rand s (requestedProducts s input)).1.transactions =
      s.transactions ++
        [(commitSale input now rand s (requestedProducts s input)).2.transaction] := by
  refine ⟨(createTransaction_ok_iff _ _ _ _ _).mpr ⟨hne, hlen, hval, rfl⟩, rfl, ?_, rfl⟩
  show max 0 (input.payment_amount -
    ((computeItemDetails input.items (requestedProducts s input)).map
      fun d => d.total_price).sum) = 0
  exact max_eq_left (by linarith)

/-- C10 witness: payment 1 against a total of 2. -/
theorem c10_underpayment_succeeds_witness :
    createTransaction ⟨[⟨1, 1⟩], .cash, 1, none⟩ sampleTime "r" sampleState =
      .ok (commitSale ⟨[⟨1, 1⟩], .cash, 1, none⟩ sampleTime "r" sampleState
        (requestedProducts sampleState ⟨[⟨1, 1⟩], .cash, 1, none⟩)) ∧
    (commitSale ⟨[⟨1, 1⟩], .cash, 1, none⟩ sampleTime "r" sampleState
      (requestedProducts sampleState ⟨[⟨1, 1⟩], .cash, 1, none⟩)).2.transaction.status =
      .completed ∧
    (commitSale ⟨[⟨1, 1⟩], .cash, 1, none⟩ sampleTime "r" sampleState
      (requestedProducts sampleState ⟨[⟨1, 1⟩], .cash, 1, none⟩)).2.transaction.change_amount =
      0 := by
  have h := c10_underpayment_succeeds ⟨[⟨1, 1⟩], .cash, 1, none⟩ sampleTime "r"
    sampleState (by decide) (by decide) (by decide)
    (by norm_num [computeItemDetails, requestedProducts, sampleState, sampleProductA])
  exact ⟨h.1, h.2.1, h.2.2.1⟩

/-! ### C2, C3: inventory adjuster (modelled from the spec) -/

/-- C2: for an existing product and a signed quantity `q` with
`stock + q ≥ 0` (including `q = 0`), `adjustStock` returns the product
with the new stock, updates the stored row (`stock_quantity` and
`updated_at`), and appends exactly one movement row
`(adjustment, q, adjustment, null, notes)`. -/
theorem c2_adjustStock_success (input : StockAdjustmentInput) (now : DateTime)
    (s : DBState) (p : Product)
    (hfind : s.products.find? (fun q => q.id == input.product_id) = some p)
    (hnn : 0 ≤ p.stock_quantity + input.adjustment_quantity) :
    adjustStock input now s =
      .ok ({ s with
              products := s.products.map fun q =>
                if q.id == input.product_id then
                  { p with
                      stock_quantity := p.stock_quantity + input.adjustment_quantity
                      updated_at := now }
                else q
              stock_movements := s.stock_movements ++
                [⟨input.product_id, .adjustment, input.adjustment_quantity,
                  .adjustment, none, input.notes, now⟩] },
           { p with
              stock_quantity := p.stock_quantity + input.adjustment_quantity
              updated_at := now }) := by
  simp only [adjustStock, hfind]
  rw [if_neg (by omega)]

/-- C2 witness: a zero-quantity adjustment still writes a ledger row. -/
theorem c2_adjustStock_success_witness :
    adjustStock ⟨1, 0, some "count"⟩ sampleTime sampleState =
      .ok ({ sampleState with
              products := sampleState.products.map fun q =>
                if q.id == 1 then
                  { sampleProductA with
                      stock_quantity := sampleProductA.stock_quantity + 0
                      updated_at := sampleTime }
                else q
              stock_movements := sampleState.stock_movements ++
                [⟨1, .adjustment, 0, .adjustment, none, some "count", sampleTime⟩] },
           { sampleProductA with
              stock_quantity := sampleProductA.stock_quantity + 0
              updated_at := sampleTime }) :=
  c2_adjustStock_success ⟨1, 0, some "count"⟩ sampleTime sampleState sampleProductA
    (by decide) (by decide)

/-- C3: for an existing product and a signed quantity `q` with
`stock + q < 0`, `adjustStock` fails with `NegativeStockResult` and the
store is unchanged (no row mutated, no movement appended). -/
theorem c3_adjustStock_negative (input : StockAdjustmentInput) (now : DateTime)
    (s : DBState) (p : Product)
    (hfind : s.products.find? (fun q => q.id == input.product_id) = some p)
    (hneg : p.stock_quantity + input.adjustment_quantity < 0) :
    adjustStock input now s = .error .negativeStockResult ∧
    applyOp s (.adjust input now) = s := by
  have herr : adjustStock input now s = .error .negativeStockResult := by
    simp only [adjustStock, hfind]
    rw [if_pos (by omega)]
  exact ⟨herr, by simp [applyOp, herr]⟩

/-- C3 witness: adjusting stock 5 by −6 is rejected and changes nothing. -/
theorem c3_adjustStock_negative_witness :
    adjustStock ⟨1, -6, none⟩ sampleTime sampleState = .error .negativeStockResult ∧
    applyOp sampleState (.adjust ⟨1, -6, none⟩ sampleTime) = sampleState :=
  c3_adjustStock_negative ⟨1, -6, none⟩ sampleTime sampleState sampleProductA
    (by decide) (by decide)

/-! ### Structural lemmas about validation and the product read -/

/-- Rows with the same id in a well-formed product table are equal. -/
theorem wf_unique {s : DBState} (hwf : WFProducts s) {p q : Product}
    (hp : p ∈ s.products) (hq : q ∈ s.products) (h : p.id = q.id) : p = q :=
  List.inj_on_of_nodup_map hwf hp hq h

/-- A passed per-line validation yields, for every line, a found product
that is active and has stock at least the line quantity. -/
theorem validateItems_none_spec {items : List TransactionItemInput}
    {req : List Product} (h : validateItems items req = none) :
    ∀ item ∈ items, ∃ p, req.find? (fun q => q.id == item.product_id) = some p ∧
      p.is_active = true ∧ item.quantity ≤ p.stock_quantity := by
  induction items with
  | nil => intro item hmem; cases hmem
  | cons it rest ih =>
    intro item hmem
    cases hf : req.find? (fun q => q.id == it.product_id) with
    | none =>
      simp only [validateItems, hf] at h
      exact Option.noConfusion h
    | some product =>
      simp only [validateItems, hf] at h
      by_cases h1 : (!product.is_active) = true
      · rw [if_pos h1] at h
        exact Option.noConfusion h
      · rw [if_neg h1] at h
        by_cases h2 : product.stock_quantity < it.quantity
        · rw [if_pos h2] at h
          exact Option.noConfusion h
        · rw [if_neg h2] at h
          cases hmem with
          | head => exact ⟨product, hf, by simpa using h1, by omega⟩
          | tail _ hm => exact ih h item hm

/-- The ids of the requested-product read are pairwise distinct in a
well-formed store. -/
theorem requested_ids_nodup {s : DBState} (hwf : WFProducts s)
    (input : CreateTransactionInput) :
    ((requestedProducts s input).map fun p => p.id).Nodup :=
  ((List.filter_sublist _).map _).nodup hwf

/-- Every requested-product id occurs among the order's product ids. -/
theorem requested_ids_subset (s : DBState) (input : CreateTransactionInput) :
    ((requestedProducts s input).map fun p => p.id) ⊆
      input.items.map fun i => i.product_id := by
  intro i hi
  obtain ⟨p, hp, rfl⟩ := List.mem_map.mp hi
  have := (List.mem_filter.mp hp).2
  exact List.elem_iff.mp this

/-- When the requested-product count matches the line count (the check of
`createTransaction`), the order's product ids are pairwise distinct and
every one of them is carried by some product row. -/
theorem length_eq_spec {s : DBState} (hwf : WFProducts s)
    (input : CreateTransactionInput)
    (hlen : (requestedProducts s input).length =
      (input.items.map fun i => i.product_id).length) :
    (input.items.map fun i => i.product_id).Nodup ∧
    ∀ i ∈ input.items.map fun i => i.product_id,
      ∃ p ∈ s.products, p.id = i := by
  have hnd := requested_ids_nodup hwf input
  have hsub := requested_ids_subset s input
  have hsp := hnd.subperm hsub
  have hperm : List.Perm ((requestedProducts s input).map fun p => p.id)
      (input.items.map fun i => i.product_id) := by
    refine hsp.perm_of_length_le ?_
    simp only [List.length_map] at hlen ⊢
    omega
  constructor
  · exact hperm.nodup_iff.mp hnd
  · intro i hi
    have : i ∈ (requestedProducts s input).map fun p => p.id :=
      hperm.mem_iff.mpr hi
    obtain ⟨p, hp, rfl⟩ := List.mem_map.mp this
    exact ⟨p, List.mem_of_mem_filter hp, rfl⟩

/-! ### C4: validation failures write nothing -/

/-- C4: whenever `createTransaction` fails (all its failures are
validation failures: empty order, missing product, inactive product, or a
line quantity above that product's stock — each of which forces an
error), no table row is written and no stock changes: the store after the
operation is exactly the store before. -/
theorem c4_validation_failure_no_writes (input : CreateTransactionInput)
    (now : DateTime) (rand : String) (s : DBState) (hwf : WFProducts s) :
    (∀ e, createTransaction input now rand s = .error e →
      applyOp s (.sale input now rand) = s) ∧
    (input.items = [] →
      createTransaction input now rand s = .error .emptyOrder) ∧
    ((∃ item ∈ input.items, ∀ p ∈ s.products, p.id ≠ item.product_id) →
      ∃ e, createTransaction input now rand s = .error e) ∧
    ((∃ item ∈ input.items, ∃ p ∈ s.products,
        p.id = item.product_id ∧ p.is_active = false) →
      ∃ e, createTransaction input now rand s = .error e) ∧
    ((∃ item ∈ input.items, ∃ p ∈ s.products,
        p.id = item.product_id ∧ p.stock_quantity < item.quantity) →
      ∃ e, createTransaction input now rand s = .error e) := by
  refine ⟨fun e he => by simp [applyOp, he], fun h => by simp [createTransaction, h], ?_, ?_, ?_⟩
  · rintro ⟨item, hmem, hnone⟩
    cases hE : createTransaction input now rand s with
    | error e => exact ⟨e, rfl⟩
    | ok out =>
      exfalso
      obtain ⟨-, hlen, -, -⟩ := (createTransaction_ok_iff _ _ _ _ _).mp hE
      obtain ⟨-, hall⟩ := length_eq_spec hwf input hlen
      obtain ⟨p, hp, hpid⟩ := hall item.product_id (List.mem_map_of_mem _ hmem)
      exact hnone p hp hpid
  · rintro ⟨item, hmem, p, hp, hpid, hina⟩
    cases hE : createTransaction input now rand s with
    | error e => exact ⟨e, rfl⟩
    | ok out =>
      exfalso
      obtain ⟨-, -, hval, -⟩ := (createTransaction_ok_iff _ _ _ _ _).mp hE
      obtain ⟨q, hfq, hact, -⟩ := validateItems_none_spec hval item hmem
      have hqmem : q ∈ s.products :=
        List.mem_of_mem_filter (List.mem_of_find?_eq_some hfq)
      have hqid : q.id = item.product_id := by simpa using List.find?_some hfq
      have : p = q := wf_unique hwf hp hqmem (by rw [hpid, hqid])
      rw [this] at hina
      rw [hina] at hact
      cases hact
  · rintro ⟨item, hmem, p, hp, hpid, hstock⟩
    cases hE : createTransaction input now rand s with
    | error e => exact ⟨e, rfl⟩
    | ok out =>
      exfalso
      obtain ⟨-, -, hval, -⟩ := (createTransaction_ok_iff _ _ _ _ _).mp hE
      obtain ⟨q, hfq, -, hqstock⟩ := validateItems_none_spec hval item hmem
      have hqmem : q ∈ s.products :=
        List.mem_of_mem_filter (List.mem_of_find?_eq_some hfq)
      have hqid : q.id = item.product_id := by simpa using List.find?_some hfq
      have : p = q := wf_unique hwf hp hqmem (by rw [hpid, hqid])
      rw [this] at hstock
      omega

/-- C4 witness: an empty order is rejected and leaves the store as is. -/
theorem c4_validation_failure_no_writes_witness :
    createTransaction ⟨[], .cash, 1, none⟩ sampleTime "r" sampleState =
      .error .emptyOrder ∧
    applyOp sampleState (.sale ⟨[], .cash, 1, none⟩ sampleTime "r") = sampleState := by
  have h := c4_validation_failure_no_writes ⟨[], .cash, 1, none⟩ sampleTime "r"
    sampleState (by unfold WFProducts; decide)
  have he := h.2.1 rfl
  exact ⟨he, h.1 .emptyOrder he⟩

/-! ### C6: monetary totals -/

/-- Assigning row ids preserves the line totals. -/
theorem assignItemRows_map_total (n t : Nat) (now : DateTime)
    (ds : List ItemDetail) :
    (assignItemRows n t now ds).map (fun r => r.total_price) =
      ds.map fun d => d.total_price := by
  induction ds generalizing n with
  | nil => rfl
  | cons d rest ih => simp [assignItemRows, ih]

/-- Every inserted item row carries the fields of some computed detail. -/
theorem mem_assignItemRows {n t : Nat} {now : DateTime} {ds : List ItemDetail}
    {row : TransactionItemRow} (h : row ∈ assignItemRows n t now ds) :
    ∃ d ∈ ds, row.product_id = d.product_id ∧ row.quantity = d.quantity ∧
      row.unit_price = d.unit_price ∧ row.total_price = d.total_price := by
  induction ds generalizing n with
  | nil => cases h
  | cons d rest ih =>
    cases h with
    | head => exact ⟨d, List.mem_cons_self .., rfl, rfl, rfl, rfl⟩
    | tail _ hm =>
      obtain ⟨e, he, hh⟩ := ih hm
      exact ⟨e, List.mem_cons_of_mem _ he, hh⟩

/-- Every computed detail satisfies `total_price = unit_price * quantity`. -/
theorem computeItemDetails_total {items : List TransactionItemInput}
    {req : List Product} :
    ∀ d ∈ computeItemDetails items req,
      d.total_price = d.unit_price * (d.quantity : Rat) := by
  intro d hd
  obtain ⟨item, hitem, rfl⟩ := List.mem_map.mp hd
  cases hf : req.find? (fun p => p.id == item.product_id) <;> simp [hf]

/-- Every computed detail's unit price is the price of the product found
for its id in the pre-sale read. -/
theorem computeItemDetails_price {items : List TransactionItemInput}
    {req : List Product} :
    ∀ d ∈ computeItemDetails items req, ∀ p : Product,
      req.find? (fun q => q.id == d.product_id) = some p →
      d.unit_price = p.price := by
  intro d hd p hp
  obtain ⟨item, hitem, rfl⟩ := List.mem_map.mp hd
  cases hf : req.find? (fun q => q.id == item.product_id) with
  | none =>
    simp only [hf] at hp
    exact Option.noConfusion hp
  | some q =>
    simp only [hf] at hp ⊢
    cases hp
    rfl

/-- C6: for every persisted transaction, `total_amount` is the sum of its
line items' `total_price`; each line's `total_price` is
`unit_price * quantity`; and each line's `unit_price` is the price of the
product captured at sale time. -/
theorem c6_totals (input : CreateTransactionInput) (now : DateTime)
    (rand : String) (s s2 : DBState) (r : TransactionWithItems)
    (hok : createTransaction input now rand s = .ok (s2, r)) :
    r.transaction.total_amount = (r.items.map fun it => it.total_price).sum ∧
    (∀ it ∈ r.items, it.total_price = it.unit_price * (it.quantity : Rat)) ∧
    (∀ it ∈ r.items, ∀ p : Product,
      (requestedProducts s input).find? (fun q => q.id == it.product_id) = some p →
      it.unit_price = p.price) ∧
    s2.transactions = s.transactions ++ [r.transaction] ∧
    s2.transaction_items = s.transaction_items ++ r.items := by
  obtain ⟨-, -, -, hout⟩ := (createTransaction_ok_iff _ _ _ _ _).mp hok
  have hs2 : s2 = (commitSale input now rand s (requestedProducts s input)).1 :=
    congrArg Prod.fst hout
  have hr : r = (commitSale input now rand s (requestedProducts s input)).2 :=
    congrArg Prod.snd hout
  subst hs2
  subst hr
  refine ⟨?_, ?_, ?_, by simp [commitSale], by simp [commitSale]⟩
  · simp only [commitSale]
    rw [assignItemRows_map_total]
  · intro it hit
    simp only [commitSale] at hit
    obtain ⟨d, hd, -, hq, hu, ht⟩ := mem_assignItemRows hit
    rw [ht, hu, hq]
    exact computeItemDetails_total d hd
  · intro it hit p hp
    simp only [commitSale] at hit
    obtain ⟨d, hd, hpid, -, hu, -⟩ := mem_assignItemRows hit
    rw [hu]
    refine computeItemDetails_price d hd p ?_
    rw [← hpid]
    exact hp

/-- C6 witness: the sample sale of two units at price 2. -/
theorem c6_totals_witness :
    (commitSale ⟨[⟨1, 2⟩], .cash, 10, none⟩ sampleTime "r" sampleState
      (requestedProducts sampleState ⟨[⟨1, 2⟩], .cash, 10, none⟩)).2.transaction.total_amount =
      ((commitSale ⟨[⟨1, 2⟩], .cash, 10, none⟩ sampleTime "r" sampleState
        (requestedProducts sampleState ⟨[⟨1, 2⟩], .cash, 10, none⟩)).2.items.map
          fun it => it.total_price).sum ∧
    ∀ it ∈ (commitSale ⟨[⟨1, 2⟩], .cash, 10, none⟩ sampleTime "r" sampleState
      (requestedProducts sampleState ⟨[⟨1, 2⟩], .cash, 10, none⟩)).2.items,
      it.total_price = it.unit_price * (it.quantity : Rat) := by
  have h := c6_totals ⟨[⟨1, 2⟩], .cash, 10, none⟩ sampleTime "r" sampleState
    (commitSale ⟨[⟨1, 2⟩], .cash, 10, none⟩ sampleTime "r" sampleState
      (requestedProducts sampleState ⟨[⟨1, 2⟩], .cash, 10, none⟩)).1
    (commitSale ⟨[⟨1, 2⟩], .cash, 10, none⟩ sampleTime "r" sampleState
      (requestedProducts sampleState ⟨[⟨1, 2⟩], .cash, 10, none⟩)).2 rfl
  exact ⟨h.1, h.2.1⟩

/-! ### C1: duplicate lines in one order -/

/-- C1 counterexample: with a product of stock 5 and the order
`[{B,3},{B,3}]`, `createTransaction` does fail before any write — but
with the "One or more products not found" error produced by the
count check (`requestedProducts.length !== productIds.length`, which a
duplicated id always trips), not with `InsufficientStock` as claimed. -/
theorem c1_duplicate_lines_counterexample :
    createTransaction ⟨[⟨1, 3⟩, ⟨1, 3⟩], .cash, 100, none⟩ sampleTime "r" sampleState =
      .error .productsNotFound ∧
    isInsufficientStock
      (createTransaction ⟨[⟨1, 3⟩, ⟨1, 3⟩], .cash, 100, none⟩ sampleTime "r" sampleState) =
      false := by
  exact ⟨rfl, rfl⟩

/-- C1 (amended): any order listing the same product id on several lines
is rejected by the product-count check with the products-not-found error
(not `InsufficientStock`), leaving the store — stock and ledger —
unchanged. -/
theorem c1_duplicate_lines_rejected (input : CreateTransactionInput)
    (now : DateTime) (rand : String) (s : DBState) (hwf : WFProducts s)
    (hdup : ¬ (input.items.map fun i => i.product_id).Nodup) :
    createTransaction input now rand s = .error .productsNotFound ∧
    applyOp s (.sale input now rand) = s := by
  have hne : input.items.isEmpty = false := by
    cases hi : input.items with
    | nil =>
      rw [hi] at hdup
      simp at hdup
    | cons a l => rfl
  have hlt : (requestedProducts s input).length <
      (input.items.map fun i => i.product_id).length := by
    have hnd := requested_ids_nodup hwf input
    have hsub : ((requestedProducts s input).map fun p => p.id) ⊆
        (input.items.map fun i => i.product_id).dedup :=
      fun i hi => List.mem_dedup.mpr (requested_ids_subset s input hi)
    have h1 := (hnd.subperm hsub).length_le
    have h2 : ((input.items.map fun i => i.product_id).dedup).length <
        (input.items.map fun i => i.product_id).length := by
      have hle := (List.dedup_sublist
        (input.items.map fun i => i.product_id)).length_le
      rcases lt_or_eq_of_le hle with hx | hx
      · exact hx
      · exfalso
        have := (List.dedup_sublist
          (input.items.map fun i => i.product_id)).eq_of_length hx
        rw [← this] at hdup
        exact hdup (List.nodup_dedup _)
    have h3 : ((requestedProducts s input).map fun p => p.id).length =
        (requestedProducts s input).length := List.length_map ..
    omega
  have herr : createTransaction input now rand s = .error .productsNotFound := by
    rw [createTransaction, if_neg (by simp [hne]), if_pos (by omega)]
  exact ⟨herr, by simp [applyOp, herr]⟩

/-- C1 witness for the amended statement: the concrete `[{B,3},{B,3}]`
scenario with stock 5. -/
theorem c1_duplicate_lines_rejected_witness :
    createTransaction ⟨[⟨1, 3⟩, ⟨1, 3⟩], .cash, 100, none⟩ sampleTime "r" sampleState =
      .error .productsNotFound ∧
    applyOp sampleState (.sale ⟨[⟨1, 3⟩, ⟨1, 3⟩], .cash, 100, none⟩ sampleTime "r") =
      sampleState :=
  c1_duplicate_lines_rejected ⟨[⟨1, 3⟩, ⟨1, 3⟩], .cash, 100, none⟩ sampleTime "r"
    sampleState (by unfold WFProducts; decide) (by decide)

/-! ### C5: ledger reconciliation -/

/-- `updFn` never changes a row's id. -/
theorem updFn_id (req : List Product) (now : DateTime)
    (items : List TransactionItemInput) (p : Product) :
    (updFn req now items p).id = p.id := by
  unfold updFn
  split
  · split
    · rfl
    · rfl
  · rfl

/-- A find over lines whose key does not occur returns nothing. -/
theorem find?_items_none {rest : List TransactionItemInput} {x : Nat}
    (h : x ∉ rest.map fun i => i.product_id) :
    rest.find? (fun it => it.product_id == x) = none :=
  List.find?_eq_none.mpr fun a ha hpa =>
    h (List.mem_map.mpr ⟨a, ha, beq_iff_eq.mp hpa⟩)

/-- One step of the stock-update fold. -/
theorem applyStockUpdates_cons (req : List Product) (now : DateTime)
    (it : TransactionItemInput) (rest : List TransactionItemInput)
    (ps : List Product) :
    applyStockUpdates req now (it :: rest) ps =
      applyStockUpdates req now rest
        (match req.find? (fun q => q.id == it.product_id) with
         | some product => ps.map fun p =>
             if p.id == it.product_id then
               { p with stock_quantity := product.stock_quantity - it.quantity
                        updated_at := now }
             else p
         | none => ps) := rfl

/-- With pairwise-distinct line product ids, the stock-update loop acts as
a pointwise map of `updFn` over the product table. -/
theorem applyStockUpdates_eq_map (req : List Product) (now : DateTime)
    (items : List TransactionItemInput) (ps : List Product)
    (hnd : (items.map fun i => i.product_id).Nodup) :
    applyStockUpdates req now items ps = ps.map (updFn req now items) := by
  induction items generalizing ps with
  | nil =>
    show ps = ps.map fun p => p
    simp
  | cons it rest ih =>
    rw [List.map_cons] at hnd
    obtain ⟨hni, hnd2⟩ := List.nodup_cons.mp hnd
    rw [applyStockUpdates_cons]
    cases hf : req.find? (fun q => q.id == it.product_id) with
    | none =>
      rw [ih _ hnd2]
      refine List.map_congr_left fun p _ => ?_
      by_cases hpe : (it.product_id == p.id) = true
      · have h1 : (it :: rest).find? (fun i => i.product_id == p.id) = some it :=
          List.find?_cons_of_pos _ hpe
        have h2 : rest.find? (fun i => i.product_id == p.id) = none :=
          find?_items_none (beq_iff_eq.mp hpe ▸ hni)
        simp only [updFn, h1, h2, hf]
      · have h1 : (it :: rest).find? (fun i => i.product_id == p.id) =
            rest.find? (fun i => i.product_id == p.id) :=
          List.find?_cons_of_neg _ hpe
        simp only [updFn, h1]
    | some product =>
      rw [ih _ hnd2, List.map_map]
      refine List.map_congr_left fun p _ => ?_
      simp only [Function.comp_apply]
      by_cases hpe : (it.product_id == p.id) = true
      · have hpid : it.product_id = p.id := beq_iff_eq.mp hpe
        have hsymm : (p.id == it.product_id) = true := beq_iff_eq.mpr hpid.symm
        have h1 : (it :: rest).find? (fun i => i.product_id == p.id) = some it :=
          List.find?_cons_of_pos _ hpe
        have h2 : rest.find? (fun i => i.product_id == p.id) = none :=
          find?_items_none (hpid ▸ hni)
        rw [if_pos hsymm]
        simp only [updFn, h1, h2, hf]
      · have h1 : (it :: rest).find? (fun i => i.product_id == p.id) =
            rest.find? (fun i => i.product_id == p.id) :=
          List.find?_cons_of_neg _ hpe
        have hsymm : ¬ (p.id == it.product_id) = true := by
          intro hx
          exact hpe (beq_iff_eq.mpr (beq_iff_eq.mp hx).symm)
        rw [if_neg hsymm]
        simp only [updFn, h1]

/-- The signed movement contribution of one sale to one product: the
negated quantity of the (unique) line for that product, or nothing. -/
theorem saleMovements_sum (txId : Nat) (txN : String) (now : DateTime)
    (items : List TransactionItemInput) (x : Nat)
    (hnd : (items.map fun i => i.product_id).Nodup) :
    (((saleMovements txId txN now items).filter
        fun m => m.product_id == x).map fun m => m.quantity).sum =
      (match items.find? (fun it => it.product_id == x) with
       | some it => -it.quantity
       | none => 0) := by
  induction items with
  | nil => rfl
  | cons it rest ih =>
    rw [List.map_cons] at hnd
    obtain ⟨hni, hnd2⟩ := List.nodup_cons.mp hnd
    have ih2 := ih hnd2
    simp only [saleMovements] at ih2 ⊢
    by_cases hpe : (it.product_id == x) = true
    · have h2 : rest.find? (fun i => i.product_id == x) = none :=
        find?_items_none (beq_iff_eq.mp hpe ▸ hni)
      simp only [h2] at ih2
      have h1 : (it :: rest).find? (fun i => i.product_id == x) = some it :=
        List.find?_cons_of_pos _ hpe
      simp only [List.map_cons, List.filter_cons, h1]
      rw [if_pos hpe, List.map_cons, List.sum_cons, ih2]
      ring
    · have h1 : (it :: rest).find? (fun i => i.product_id == x) =
          rest.find? (fun i => i.product_id == x) :=
        List.find?_cons_of_neg _ hpe
      simp only [List.map_cons, List.filter_cons, h1]
      rw [if_neg hpe]
      exact ih2

/-- A committed sale preserves well-formedness and the reconciliation
invariant. -/
theorem sale_ok_preserves (input : CreateTransactionInput) (now : DateTime)
    (rand : String) (s : DBState) (out : DBState × TransactionWithItems)
    (base : Nat → Int) (hwf : WFProducts s) (hrec : reconciles base s)
    (hok : createTransaction input now rand s = .ok out) :
    WFProducts out.1 ∧ reconciles base out.1 := by
  obtain ⟨hne, hlen, hval, hout⟩ := (createTransaction_ok_iff _ _ _ _ _).mp hok
  obtain ⟨hnd, -⟩ := length_eq_spec hwf input hlen
  rw [hout]
  constructor
  · show ((applyStockUpdates (requestedProducts s input) now input.items
      s.products).map fun p => p.id).Nodup
    rw [applyStockUpdates_eq_map _ _ _ _ hnd, List.map_map]
    have he : ((fun p => p.id) ∘ updFn (requestedProducts s input) now input.items) =
        fun p => p.id := funext fun p => updFn_id _ _ _ p
    rw [he]
    exact hwf
  · intro p2 hp2
    have hp2x : p2 ∈ applyStockUpdates (requestedProducts s input) now input.items
        s.products := hp2
    rw [applyStockUpdates_eq_map _ _ _ _ hnd] at hp2x
    obtain ⟨p, hp, rfl⟩ := List.mem_map.mp hp2x
    show (updFn (requestedProducts s input) now input.items p).stock_quantity =
      base (updFn (requestedProducts s input) now input.items p).id +
        movementSum (commitSale input now rand s (requestedProducts s input)).1
          (updFn (requestedProducts s input) now input.items p).id
    rw [updFn_id]
    have hms : movementSum (commitSale input now rand s (requestedProducts s input)).1 p.id =
        movementSum s p.id +
          (((saleMovements s.nextTxId
              ("TRX-" ++ toString now.epochMs ++ "-" ++ rand) now input.items).filter
            fun m => m.product_id == p.id).map fun m => m.quantity).sum := by
      simp [commitSale, movementSum, List.filter_append, List.sum_append]
    have hsum := saleMovements_sum s.nextTxId
      ("TRX-" ++ toString now.epochMs ++ "-" ++ rand) now input.items p.id hnd
    cases hfi : input.items.find? (fun it => it.product_id == p.id) with
    | none =>
      simp only [hfi] at hsum
      rw [hms, hsum]
      simp only [updFn, hfi]
      rw [hrec p hp]
      ring
    | some it =>
      simp only [hfi] at hsum
      obtain ⟨q, hfq, -, -⟩ :=
        validateItems_none_spec hval it (List.mem_of_find?_eq_some hfi)
      rw [hms, hsum]
      simp only [updFn, hfi, hfq]
      have hqid : q.id = it.product_id := by simpa using List.find?_some hfq
      have hpid : it.product_id = p.id := by simpa using List.find?_some hfi
      have hqmem : q ∈ s.products :=
        List.mem_of_mem_filter (List.mem_of_find?_eq_some hfq)
      have hqp : q = p := wf_unique hwf hqmem hp (by rw [hqid, hpid])
      rw [hqp]
      rw [hrec p hp]
      ring

/-- A successful adjustment preserves well-formedness and the
reconciliation invariant. -/
theorem adjust_ok_preserves (input : StockAdjustmentInput) (now : DateTime)
    (s : DBState) (out : DBState × Product) (base : Nat → Int)
    (hwf : WFProducts s) (hrec : reconciles base s)
    (hok : adjustStock input now s = .ok out) :
    WFProducts out.1 ∧ reconciles base out.1 := by
  cases hf : s.products.find? (fun p => p.id == input.product_id) with
  | none =>
    simp only [adjustStock, hf] at hok
    exact Except.noConfusion hok
  | some product =>
    simp only [adjustStock, hf] at hok
    by_cases hneg : product.stock_quantity + input.adjustment_quantity < 0
    · rw [if_pos hneg] at hok
      simp at hok
    · rw [if_neg hneg] at hok
      have hprodid : product.id = input.product_id := by simpa using List.find?_some hf
      cases hok
      constructor
      · show ((s.products.map fun p =>
          if p.id == input.product_id then
            { product with
                stock_quantity := product.stock_quantity + input.adjustment_quantity
                updated_at := now }
          else p).map fun p => p.id).Nodup
        rw [List.map_map]
        have he : ∀ p ∈ s.products, ((fun p => p.id) ∘ fun p =>
            if p.id == input.product_id then
              { product with
                  stock_quantity := product.stock_quantity + input.adjustment_quantity
                  updated_at := now }
            else p) p = p.id := by
          intro p hpmem
          simp only [Function.comp_apply]
          by_cases hpe : (p.id == input.product_id) = true
          · rw [if_pos hpe]
            show product.id = p.id
            rw [hprodid, beq_iff_eq.mp hpe]
          · rw [if_neg hpe]
        rw [List.map_congr_left he]
        exact hwf
      · intro p2 hp2
        obtain ⟨p, hp, rfl⟩ := List.mem_map.mp hp2
        by_cases hpe : (p.id == input.product_id) = true
        · rw [if_pos hpe]
          have hpid : p.id = input.product_id := beq_iff_eq.mp hpe
          have hpq : p = product :=
            wf_unique hwf hp (List.mem_of_find?_eq_some hf) (by rw [hpid, hprodid])
          have hms : movementSum
              { s with
                  products := s.products.map fun p =>
                    if p.id == input.product_id then
                      { product with
                          stock_quantity :=
                            product.stock_quantity + input.adjustment_quantity
                          updated_at := now }
                    else p
                  stock_movements := s.stock_movements ++
                    [⟨input.product_id, .adjustment, input.adjustment_quantity,
                      .adjustment, none, input.notes, now⟩] } product.id =
              movementSum s product.id + input.adjustment_quantity := by
            simp [movementSum, List.filter_append, List.sum_append, hprodid]
          show product.stock_quantity + input.adjustment_quantity =
            base product.id + movementSum _ product.id
          rw [hms]
          have hx := hrec product (List.mem_of_find?_eq_some hf)
          omega
        · rw [if_neg hpe]
          have hne2 : (input.product_id == p.id) = false := by
            rw [beq_eq_false_iff_ne]
            intro hx
            exact hpe (beq_iff_eq.mpr hx.symm)
          have hms : movementSum
              { s with
                  products := s.products.map fun p =>
                    if p.id == input.product_id then
                      { product with
                          stock_quantity :=
                            product.stock_quantity + input.adjustment_quantity
                          updated_at := now }
                    else p
                  stock_movements := s.stock_movements ++
                    [⟨input.product_id, .adjustment, input.adjustment_quantity,
                      .adjustment, none, input.notes, now⟩] } p.id =
              movementSum s p.id := by
            simp [movementSum, List.filter_append, List.sum_append, hne2]
          rw [hms]
          exact hrec p hp

/-- Every single operation — sale or adjustment, successful or failed —
preserves well-formedness and the reconciliation invariant. -/
theorem applyOp_preserves (s : DBState) (op : Op) (base : Nat → Int)
    (hwf : WFProducts s) (hrec : reconciles base s) :
    WFProducts (applyOp s op) ∧ reconciles base (applyOp s op) := by
  cases op with
  | sale input now rand =>
    have happ : applyOp s (Op.sale input now rand) =
        (match createTransaction input now rand s with
         | .ok (s2, _) => s2
         | .error _ => s) := rfl
    rw [happ]
    cases hE : createTransaction input now rand s with
    | ok out =>
      obtain ⟨s2, r⟩ := out
      exact sale_ok_preserves input now rand s (s2, r) base hwf hrec hE
    | error e => exact ⟨hwf, hrec⟩
  | adjust input now =>
    have happ : applyOp s (Op.adjust input now) =
        (match adjustStock input now s with
         | .ok (s2, _) => s2
         | .error _ => s) := rfl
    rw [happ]
    cases hE : adjustStock input now s with
    | ok out =>
      obtain ⟨s2, r⟩ := out
      exact adjust_ok_preserves input now s (s2, r) base hwf hrec hE
    | error e => exact ⟨hwf, hrec⟩

/-- C5: starting from any well-formed store whose stocks reconcile with a
base via the recorded movements, the reconciliation invariant (and
well-formedness) holds after every sequence of `createTransaction` /
`adjustStock` operations — hence after every single operation. -/
theorem c5_ledger_reconciliation (ops : List Op) (s : DBState)
    (base : Nat → Int) (hwf : WFProducts s) (hrec : reconciles base s) :
    WFProducts (runOps s ops) ∧ reconciles base (runOps s ops) := by
  induction ops generalizing s with
  | nil => exact ⟨hwf, hrec⟩
  | cons op rest ih =>
    have h := applyOp_preserves s op base hwf hrec
    show WFProducts (runOps (applyOp s op) rest) ∧ _
    exact ih (applyOp s op) h.1 h.2

/-- C5 witness: a sale of two units followed by an adjustment of +3,
starting from stock 5 with an empty ledger. -/
theorem c5_ledger_reconciliation_witness :
    WFProducts (runOps sampleState
      [.sale ⟨[⟨1, 2⟩], .cash, 10, none⟩ sampleTime "r",
       .adjust ⟨1, 3, none⟩ sampleTime]) ∧
    reconciles (fun _ => (5 : Int)) (runOps sampleState
      [.sale ⟨[⟨1, 2⟩], .cash, 10, none⟩ sampleTime "r",
       .adjust ⟨1, 3, none⟩ sampleTime]) :=
  c5_ledger_reconciliation _ sampleState (fun _ => (5 : Int))
    (by unfold WFProducts; decide)
    (by unfold reconciles movementSum; decide)

end Kasir
